import Mathlib

/-!
Shallow embedding of the model-validation core of the
`micro-fleet-common-contracts` library.

The embedding covers:
* Joi-style constraint expressions on individual fields (`FieldSchema`),
  restricted to the features the library's own schemas exercise
  (presence, base type, numeric and length bounds);
* schema maps as association lists in declaration order, mirroring
  JavaScript object semantics (`SchemaMap`, `lookupA`, `assocSet`,
  `spreadMerge` for spread-merging two objects);
* `JoiModelValidator` (src/app/validators/JoiModelValidator.ts): schema
  compilation (`compileWholeSchema`, `compilePatchSchema`, where `patch`
  models the source's partial-validation method, a Lean keyword clash),
  optionalization (`optionalize`) and validation (`validateS`) with
  default and per-call options;
* the validation-metadata registry and schema-map builder
  (dist/app/validators/validate-internal.js): `cloneMetadata`,
  `getClassValidationMetadata`, `buildSchemaMapModel`,
  `createJoiValidator`.  Per-property metadata objects are modelled as
  references (indices) into a store, so that JavaScript's sharing of
  object references across shallowly-copied maps is observable;
* `ModelAutoMapper` (the translate pipeline): `translate`,
  `tryTranslate`, with results that record thrown errors and the
  arguments delivered to the error callback.
-/

/-- JavaScript runtime values, as far as the validator observes them. -/
inductive JVal where
  | vNull
  | vUndef
  | vStr (s : String)
  | vNum (n : Int)
  | vBool (b : Bool)
  | vObj (fields : List (String × JVal))
  | vArr (elems : List JVal)

/-- A plain object: field name to value, in insertion order. -/
abbrev Obj := List (String × JVal)

/-- The base type a Joi constraint demands. -/
inductive JType where
  | tString
  | tNumber
  | tBoolean
  | tAny
deriving DecidableEq

/-- Does a value have the demanded base type? -/
def typeOk : JType → JVal → Bool
  | JType.tString, JVal.vStr _ => true
  | JType.tNumber, JVal.vNum _ => true
  | JType.tBoolean, JVal.vBool _ => true
  | JType.tAny, _ => true
  | _, _ => false

/-- A single field's constraint expression (a Joi schema), restricted to
the features the library's models use.  `hasOptionalFn` models whether
the schema object exposes an `optional` method (`typeof rule.optional
=== 'function'` in `_optionalize`). -/
structure FieldSchema where
  required : Bool
  hasOptionalFn : Bool
  jtype : JType
  minLen : Option Nat
  maxLen : Option Nat
  minNum : Option Int
  maxNum : Option Int
deriving DecidableEq

/-- Does a present value satisfy the field's constraints (other than
presence)? -/
def satisfies (s : FieldSchema) (v : JVal) : Bool :=
  typeOk s.jtype v
    && (match s.minLen, v with
        | some n, JVal.vStr str => decide (n ≤ str.length)
        | _, _ => true)
    && (match s.maxLen, v with
        | some n, JVal.vStr str => decide (str.length ≤ n)
        | _, _ => true)
    && (match s.minNum, v with
        | some n, JVal.vNum m => decide (n ≤ m)
        | _, _ => true)
    && (match s.maxNum, v with
        | some n, JVal.vNum m => decide (m ≤ n)
        | _, _ => true)

/-- `rule.optional()`: same constraints, presence no longer required. -/
def optionalOf (s : FieldSchema) : FieldSchema :=
  { s with required := false }

/-- A schema map (`joi.SchemaMap`): property name to constraint, in
declaration order, modelling a JavaScript object. -/
abbrev SchemaMap := List (String × FieldSchema)

/-- Lookup in an association list: first entry with the given key, as in
JavaScript property access (keys are unique in real objects). -/
def lookupA {κ : Type} {α : Type} [DecidableEq κ] : List (κ × α) → κ → Option α
  | [], _ => none
  | (k0, v) :: rest, k => if k0 = k then some v else lookupA rest k

/-- Does the association list have the key? -/
def hasKey {κ : Type} {α : Type} [DecidableEq κ] (m : List (κ × α)) (k : κ) : Bool :=
  match lookupA m k with
  | some _ => true
  | none => false

/-- JavaScript property assignment `obj[k] = v`: overwrite in place if
the key exists, else append. -/
def assocSet {κ : Type} {α : Type} [DecidableEq κ] : List (κ × α) → κ → α → List (κ × α)
  | [], k, v => [(k, v)]
  | (k0, v0) :: rest, k, v =>
      if k0 = k then (k, v) :: rest else (k0, v0) :: assocSet rest k v

/-- Are the keys of the association list pairwise distinct (always true
for maps read off a JavaScript object)? -/
def nodupKeys {κ : Type} {α : Type} [DecidableEq κ] : List (κ × α) → Bool
  | [] => true
  | (k, _) :: rest => !(hasKey rest k) && nodupKeys rest

/-- First-some choice on options (used to state spread-merge lookups). -/
def pickO {α : Type} (a b : Option α) : Option α :=
  match a with
  | some x => some x
  | none => b

/-- JavaScript object spread `\x7b...a, ...b\x7d`: keys of `a` in order
(values overridden by `b` where shared), then keys of `b` not in `a`. -/
def spreadMerge (a b : SchemaMap) : SchemaMap :=
  a.map (fun p => (p.1, (lookupA b p.1).getD p.2))
    ++ b.filter (fun p => !(hasKey a p.1))

/-- `_optionalize`: keep only the fields whose schema supports
`optional`, with presence dropped; fields without an `optional` method
are omitted from the result. -/
def optionalize : SchemaMap → SchemaMap
  | [] => []
  | (k, s) :: rest =>
      if s.hasOptionalFn then (k, optionalOf s) :: optionalize rest
      else optionalize rest

/-- Effective Joi validation options. -/
structure JoiOptions where
  abortEarly : Bool
  allowUnknown : Bool
  stripUnknown : Bool
deriving DecidableEq

/-- A partial options object: absent fields do not override. -/
structure PartOptions where
  abortEarly : Option Bool := none
  allowUnknown : Option Bool := none
  stripUnknown : Option Bool := none
deriving DecidableEq

/-- Spread-merge of options `\x7b...base, ...o\x7d`: each present field
of `o` replaces the corresponding field of `base`. -/
def mergeOpts (base : JoiOptions) (o : PartOptions) : JoiOptions :=
  { abortEarly := o.abortEarly.getD base.abortEarly
    allowUnknown := o.allowUnknown.getD base.allowUnknown
    stripUnknown := o.stripUnknown.getD base.stripUnknown }

/-- One `(path, message)` entry of a ValidationError's details. -/
abbrev ErrItem := String × String

/-- The details list of a ValidationError. -/
abbrev VErr := List ErrItem

/-- Read a field off the candidate object; a JavaScript `undefined`
value counts as absent, as in Joi. -/
def getField (obj : Obj) (k : String) : Option JVal :=
  match lookupA obj k with
  | some JVal.vUndef => none
  | x => x

/-- Is the field absent from the candidate object? -/
def isAbsent (obj : Obj) (k : String) : Bool :=
  match getField obj k with
  | none => true
  | some _ => false

/-- Violations one field contributes: a missing required field, or a
present value failing its constraints. -/
def fieldErrors (obj : Obj) (k : String) (s : FieldSchema) : List ErrItem :=
  match getField obj k with
  | none => if s.required then [(k, "required")] else []
  | some v => if satisfies s v then [] else [(k, "invalid")]

/-- All violations contributed by the schema's declared fields, in
declaration order. -/
def fieldErrorList (obj : Obj) : SchemaMap → List ErrItem
  | [] => []
  | (k, s) :: rest => fieldErrors obj k s ++ fieldErrorList obj rest

/-- Violations from keys not declared in the schema, raised only when
unknown keys are not allowed. -/
def unknownErrors (schema : SchemaMap) (obj : Obj) (allowUnknown : Bool) : List ErrItem :=
  if allowUnknown then []
  else obj.filterMap (fun p => if hasKey schema p.1 then none else some (p.1, "is not allowed"))

/-- Every violation of the schema on the candidate, truncated to the
first one when `abortEarly` is set. -/
def collectErrors (schema : SchemaMap) (obj : Obj) (opts : JoiOptions) : List ErrItem :=
  let all := fieldErrorList obj schema ++ unknownErrors schema obj opts.allowUnknown
  if opts.abortEarly then all.take 1 else all

/-- The normalized output value: unknown keys stripped when
`stripUnknown` is set. -/
def stripValue (schema : SchemaMap) (obj : Obj) (opts : JoiOptions) : Obj :=
  if opts.stripUnknown then obj.filter (fun p => hasKey schema p.1) else obj

/-- `schema.validate(target, opts)` normalized into the library's
`[error, value]` pair: exactly one side is non-null. -/
def validateS (schema : SchemaMap) (target : Obj) (opts : JoiOptions) :
    Option VErr × Option Obj :=
  match collectErrors schema target opts with
  | [] => (none, some (stripValue schema target opts))
  | e :: rest => (some (e :: rest), none)

/-- The `whole` schema: optionalized identifier fields spread-merged
with the model fields as declared (`_compileWholeSchema`). -/
def compileWholeSchema (mId mModel : SchemaMap) : SchemaMap :=
  spreadMerge (optionalize mId) mModel

/-- The `partial` schema: identifier fields as declared spread-merged
with the optionalized model fields (`_compilePartialSchema`). -/
def compilePatchSchema (mId mModel : SchemaMap) : SchemaMap :=
  spreadMerge mId (optionalize mModel)

/-- The state of a `JoiModelValidator` instance: the two schema maps
and the default options fixed at construction. -/
structure JoiModelValidator where
  schemaMapId : SchemaMap
  schemaMapModel : SchemaMap
  defaultOpts : JoiOptions
deriving DecidableEq

/-- The `JoiModelValidator` constructor: defaults are
`abortEarly: false, allowUnknown: true, stripUnknown: true`, spread
with the construction-time `joiOptions` (absent keys change nothing). -/
def mkValidator (mId mModel : SchemaMap) (joiOptions : Option PartOptions) : JoiModelValidator :=
  { schemaMapId := mId
    schemaMapModel := mModel
    defaultOpts :=
      mergeOpts { abortEarly := false, allowUnknown := true, stripUnknown := true }
        (joiOptions.getD {}) }

/-- The compiled whole-validation schema of a validator. -/
def JoiModelValidator.compiledWhole (v : JoiModelValidator) : SchemaMap :=
  compileWholeSchema v.schemaMapId v.schemaMapModel

/-- The compiled partial-validation schema of a validator. -/
def JoiModelValidator.compiledPatch (v : JoiModelValidator) : SchemaMap :=
  compilePatchSchema v.schemaMapId v.schemaMapModel

/-- `validator.whole(target, options)`. -/
def JoiModelValidator.whole (v : JoiModelValidator) (target : Obj) (options : PartOptions) :
    Option VErr × Option Obj :=
  validateS v.compiledWhole target (mergeOpts v.defaultOpts options)

/-- `validator.partial(target, options)` (named `patch` here because
the source's name is a Lean keyword). -/
def JoiModelValidator.patch (v : JoiModelValidator) (target : Obj) (options : PartOptions) :
    Option VErr × Option Obj :=
  validateS v.compiledPatch target (mergeOpts v.defaultOpts options)

/-- Identity of a class (its constructor function). -/
abbrev ClassId := Nat

/-- A class together with its prototype chain of ancestors. -/
structure ClassT where
  self : ClassId
  ancestors : List ClassId

/-- The base constraint builder a property decorator records
(`propMeta.type`). -/
inductive TypeT where
  | tyString
  | tyNumber
  | tyBoolean
deriving DecidableEq

/-- Evaluate the base constraint builder. -/
def buildType : TypeT → FieldSchema
  | TypeT.tyString =>
      { required := false, hasOptionalFn := true, jtype := JType.tString
        minLen := none, maxLen := none, minNum := none, maxNum := none }
  | TypeT.tyNumber =>
      { required := false, hasOptionalFn := true, jtype := JType.tNumber
        minLen := none, maxLen := none, minNum := none, maxNum := none }
  | TypeT.tyBoolean =>
      { required := false, hasOptionalFn := true, jtype := JType.tBoolean
        minLen := none, maxLen := none, minNum := none, maxNum := none }

/-- A first-order rendering of the rule transformers a property
decorator pushes onto `propMeta.rules`. -/
inductive RuleT where
  | setRequired
  | setMinNum (n : Int)
  | setMaxNum (n : Int)
  | setMinLen (n : Nat)
  | setMaxLen (n : Nat)
deriving DecidableEq

/-- Apply one rule transformer to a constraint expression. -/
def applyRule : RuleT → FieldSchema → FieldSchema
  | RuleT.setRequired, s => { s with required := true }
  | RuleT.setMinNum n, s => { s with minNum := some n }
  | RuleT.setMaxNum n, s => { s with maxNum := some n }
  | RuleT.setMinLen n, s => { s with minLen := some n }
  | RuleT.setMaxLen n, s => { s with maxLen := some n }

/-- `PropValidationMetadata`: base type builder, ordered rules, an
optional raw-schema override, and the declaring class. -/
structure PropMeta where
  type : TypeT
  rules : List RuleT
  rawSchema : Option FieldSchema
  ownerClass : ClassId
deriving DecidableEq

/-- The heap of per-property metadata objects.  JavaScript passes these
around by reference, so class metadata stores indices into this store;
two maps holding the same index alias the same mutable object. -/
abbrev PropStore := List PropMeta

/-- Dereference a property-metadata reference. -/
def getProp (store : PropStore) (r : Nat) : PropMeta :=
  store.getD r { type := TypeT.tyString, rules := [], rawSchema := none, ownerClass := 0 }

/-- In-place mutation of the object a reference points to. -/
def modifyStore (store : PropStore) (r : Nat) (f : PropMeta → PropMeta) : PropStore :=
  store.set r (f (getProp store r))

/-- `ClassValidationMetadata`: directly supplied schema maps, the
per-property metadata references, the identifier-property set, and the
class-level default options. -/
structure ClassMeta where
  schemaMapId : SchemaMap
  schemaMapModel : SchemaMap
  props : List (String × Nat)
  idProps : List String
  joiOptions : Option PartOptions
deriving DecidableEq

/-- `createClassValidationMetadata`: a freshly initialized record. -/
def createClassValidationMetadata : ClassMeta :=
  { schemaMapId := [], schemaMapModel := [], props := [], idProps := [], joiOptions := none }

/-- `cloneMetadata`: spread-copies each top-level map and the id set.
The copies are new containers, but the per-property metadata entries
are the same references as the source's (`\x7b...source.props\x7d`).
The source function builds no `joiOptions` key. -/
def cloneMetadata (source : ClassMeta) : ClassMeta :=
  { schemaMapId := source.schemaMapId
    schemaMapModel := source.schemaMapModel
    props := source.props
    idProps := source.idProps
    joiOptions := none }

/-- The registry backing `Reflect.defineMetadata`: class id to
metadata record. -/
abbrev Registry := List (ClassId × ClassMeta)

/-- First metadata record found walking a prototype chain. -/
def firstMeta (reg : Registry) : List ClassId → Option ClassMeta
  | [] => none
  | c :: rest =>
      match lookupA reg c with
      | some m => some m
      | none => firstMeta reg rest

/-- `getClassValidationMetadata`: the class's own record if present,
else a clone of the nearest ancestor's, else a fresh record. -/
def getClassValidationMetadata (reg : Registry) (c : ClassT) : ClassMeta :=
  match lookupA reg c.self with
  | some m => m
  | none =>
      match firstMeta reg c.ancestors with
      | some m => cloneMetadata m
      | none => createClassValidationMetadata

/-- `setClassValidationMetadata`. -/
def setClassValidationMetadata (reg : Registry) (cid : ClassId) (m : ClassMeta) : Registry :=
  assocSet reg cid m

/-- `deleteClassValidationMetadata`: drop the class's own association. -/
def deleteClassValidationMetadata (reg : Registry) (cid : ClassId) : Registry :=
  reg.filter (fun p => p.1 != cid)

/-- `buildPropSchema`: the raw schema verbatim when set, else the rules
folded left-to-right over the base type's expression. -/
def buildPropSchema (p : PropMeta) : FieldSchema :=
  match p.rawSchema with
  | some s => s
  | none => p.rules.foldl (fun prev r => applyRule r prev) (buildType p.type)

/-- The loop body of `buildSchemaMapModel`: for each declared property
in order, write its computed schema into the id map when the name is in
`idProps`, else into the model map. -/
def buildMaps (store : PropStore) (idProps : List String) :
    List (String × Nat) → SchemaMap → SchemaMap → SchemaMap × SchemaMap
  | [], mId, mModel => (mId, mModel)
  | (k, r) :: rest, mId, mModel =>
      if idProps.contains k
      then buildMaps store idProps rest (assocSet mId k (buildPropSchema (getProp store r))) mModel
      else buildMaps store idProps rest mId (assocSet mModel k (buildPropSchema (getProp store r)))

/-- `buildSchemaMapModel(classMeta)`: starts from the class-supplied
maps and lets every property-level declaration write over them. -/
def buildSchemaMapModel (store : PropStore) (cm : ClassMeta) : SchemaMap × SchemaMap :=
  buildMaps store cm.idProps cm.props cm.schemaMapId cm.schemaMapModel

/-- `createJoiValidator(Class, joiOptions)`: build the schema maps; if
both are empty return the null sentinel (registry untouched), else
construct the validator and delete the class's metadata association. -/
def createJoiValidator (store : PropStore) (reg : Registry) (c : ClassT)
    (joiOptions : Option PartOptions) : Option JoiModelValidator × Registry :=
  let classMeta := getClassValidationMetadata reg c
  let maps := buildSchemaMapModel store classMeta
  if maps.1.isEmpty && maps.2.isEmpty then (none, reg)
  else
    let effOpts :=
      match joiOptions with
      | some o => some o
      | none => classMeta.joiOptions
    (some (mkValidator maps.1 maps.2 effOpts), deleteClassValidationMetadata reg c.self)

/-- Observe a property's recorded rules through a class metadata
record, dereferencing its props entry in the given store. -/
def readPropRules (store : PropStore) (m : ClassMeta) (k : String) : Option (List RuleT) :=
  match lookupA m.props k with
  | some r => some (getProp store r).rules
  | none => none

/-- Outcome of one run of `ModelAutoMapper.translate` on one element:
a returned value (the translated model or null) together with the
errors delivered to the error callback, or a thrown error. -/
inductive StepResult where
  | ret (m : Option Obj) (cb : List VErr)
  | thrown (e : VErr)

/-- `ModelAutoMapper.translate`: skip validation when disabled and map
directly (uncaught on failure); otherwise validate, routing a
validation error to the callback (returning null) or throwing, then map
the validated model, routing a mapping failure through the identical
branch. -/
def translateOne (vf mf : JVal → Except VErr Obj) (enableValidation hasCb : Bool)
    (src : JVal) : StepResult :=
  if enableValidation = false then
    match mf src with
    | Except.ok m => StepResult.ret (some m) []
    | Except.error e => StepResult.thrown e
  else
    match vf src with
    | Except.error e => if hasCb then StepResult.ret none [e] else StepResult.thrown e
    | Except.ok model =>
        match mf (JVal.vObj model) with
        | Except.ok m => StepResult.ret (some m) []
        | Except.error e => if hasCb then StepResult.ret none [e] else StepResult.thrown e

/-- Outcome of mapping `translate` over an array (JavaScript
`Array.prototype.map`): the per-element results with the accumulated
callback deliveries, or the first thrown error (with the deliveries
that happened before it). -/
inductive ListStep where
  | retL (ms : List (Option Obj)) (cb : List VErr)
  | thrownL (e : VErr) (cb : List VErr)

/-- Element-wise translation of an array, aborting at the first thrown
error. -/
def translateList (f : JVal → StepResult) : List JVal → ListStep
  | [] => ListStep.retL [] []
  | x :: xs =>
      match f x with
      | StepResult.thrown e => ListStep.thrownL e []
      | StepResult.ret m cb =>
          match translateList f xs with
          | ListStep.retL ms cbs => ListStep.retL (m :: ms) (cb ++ cbs)
          | ListStep.thrownL e cbs => ListStep.thrownL e (cb ++ cbs)

/-- Outcome of `ModelAutoMapper.whole`/`partial` via `tryTranslate`. -/
inductive TransResult where
  | retNull
  | one (m : Option Obj) (cb : List VErr)
  | many (ms : List (Option Obj)) (cb : List VErr)
  | thrownR (e : VErr) (cb : List VErr)

/-- Is the input rejected up front (`source == null || typeof source
!== 'object'`)?  Arrays and objects pass; everything else is refused. -/
def isNonObject : JVal → Bool
  | JVal.vObj _ => false
  | JVal.vArr _ => false
  | _ => true

/-- `ModelAutoMapper.tryTranslate`: return null for non-object input;
resolve the effective validation toggle (per-call override beats the
instance default); then translate a single object, or map translation
over an array. -/
def tryTranslate (vf mf : JVal → Except VErr Obj) (classEnable : Bool)
    (override : Option Bool) (hasCb : Bool) (src : JVal) : TransResult :=
  let enable := override.getD classEnable
  match src with
  | JVal.vObj fields =>
      (match translateOne vf mf enable hasCb (JVal.vObj fields) with
       | StepResult.ret m cb => TransResult.one m cb
       | StepResult.thrown e => TransResult.thrownR e [])
  | JVal.vArr elems =>
      (match translateList (fun x => translateOne vf mf enable hasCb x) elems with
       | ListStep.retL ms cb => TransResult.many ms cb
       | ListStep.thrownL e cb => TransResult.thrownR e cb)
  | _ => TransResult.retNull

/-- The total per-element pipeline when a callback is supplied and
validation is on (no branch can throw then): the returned value and the
callback deliveries. -/
def translateCb (vf mf : JVal → Except VErr Obj) (x : JVal) : Option Obj × List VErr :=
  match translateOne vf mf true true x with
  | StepResult.ret m cb => (m, cb)
  | StepResult.thrown _ => (none, [])

/-- Concatenated callback deliveries over an array, element-wise. -/
def flatLog (vf mf : JVal → Except VErr Obj) : List JVal → List VErr
  | [] => []
  | x :: xs => (translateCb vf mf x).2 ++ flatLog vf mf xs

section AssocLemmas

variable {κ α : Type} [DecidableEq κ]

theorem lookupA_append (a b : List (κ × α)) (k : κ) :
    lookupA (a ++ b) k = pickO (lookupA a k) (lookupA b k) := by
  induction a with
  | nil => simp [lookupA, pickO]
  | cons hd tl ih =>
      obtain ⟨k0, v0⟩ := hd
      by_cases h : k0 = k <;> simp [lookupA, h, pickO, ih]

theorem lookupA_mem {m : List (κ × α)} {k : κ} {v : α}
    (h : lookupA m k = some v) : (k, v) ∈ m := by
  induction m with
  | nil => simp [lookupA] at h
  | cons hd tl ih =>
      obtain ⟨k0, v0⟩ := hd
      by_cases hk : k0 = k
      · subst hk
        simp [lookupA] at h
        simp [h]
      · simp [lookupA, hk] at h
        exact List.mem_cons_of_mem _ (ih h)

theorem hasKey_false_lookupA {m : List (κ × α)} {k : κ}
    (h : hasKey m k = false) : lookupA m k = none := by
  unfold hasKey at h
  cases hl : lookupA m k with
  | none => rfl
  | some v => rw [hl] at h; simp at h

theorem lookupA_none_hasKey {m : List (κ × α)} {k : κ}
    (h : lookupA m k = none) : hasKey m k = false := by
  unfold hasKey
  rw [h]

theorem mem_lookupA_nodup {m : List (κ × α)} {k : κ} {v : α}
    (hnd : nodupKeys m = true) (hmem : (k, v) ∈ m) : lookupA m k = some v := by
  induction m with
  | nil => simp at hmem
  | cons hd tl ih =>
      obtain ⟨k0, v0⟩ := hd
      simp [nodupKeys] at hnd
      rcases List.mem_cons.mp hmem with heq | htl
      · have h1 : k = k0 := congrArg Prod.fst heq
        have h2 : v = v0 := congrArg Prod.snd heq
        subst h1; subst h2
        simp [lookupA]
      · have hk0 : k0 ≠ k := by
          intro hcontra
          subst hcontra
          have : lookupA tl k0 = some v := by
            have hnd2 := hnd.2
            exact ih hnd2 htl
          have hfalse := hnd.1
          unfold hasKey at hfalse
          rw [this] at hfalse
          simp at hfalse
        simp [lookupA, hk0]
        exact ih hnd.2 htl

theorem lookupA_assocSet (m : List (κ × α)) (k k2 : κ) (v : α) :
    lookupA (assocSet m k v) k2 = if k = k2 then some v else lookupA m k2 := by
  induction m with
  | nil => by_cases h : k = k2 <;> simp [assocSet, lookupA, h]
  | cons hd tl ih =>
      obtain ⟨k0, v0⟩ := hd
      by_cases h0 : k0 = k
      · subst h0
        by_cases h2 : k0 = k2 <;> simp [assocSet, lookupA, h2]
      · by_cases h2 : k0 = k2
        · subst h2
          have hne : k ≠ k0 := fun hc => h0 hc.symm
          simp [assocSet, h0, lookupA, hne]
        · simp [assocSet, h0, lookupA, h2, ih]

theorem lookupA_filterKey (m : List (κ × α)) (pred : κ → Bool) (k : κ) :
    lookupA (m.filter (fun p => pred p.1)) k
      = if pred k then lookupA m k else none := by
  induction m with
  | nil => simp [lookupA]
  | cons hd tl ih =>
      obtain ⟨k0, v0⟩ := hd
      by_cases hp : pred k0
      · by_cases hk : k0 = k
        · subst hk
          simp [List.filter, hp, lookupA, ih]
        · simp [List.filter, hp, lookupA, hk, ih]
      · by_cases hk : k0 = k
        · subst hk
          simp [List.filter, hp, lookupA, ih]
        · simp [List.filter, hp, lookupA, hk, ih]

end AssocLemmas

theorem lookupA_mapRight (b : SchemaMap) (a : SchemaMap) (k : String) :
    lookupA (a.map (fun p => (p.1, (lookupA b p.1).getD p.2))) k
      = (lookupA a k).map (fun v => (lookupA b k).getD v) := by
  induction a with
  | nil => simp [lookupA]
  | cons hd tl ih =>
      obtain ⟨k0, v0⟩ := hd
      by_cases h : k0 = k
      · subst h
        simp [lookupA]
      · simp [lookupA, h, ih]

theorem spreadMerge_lookup (a b : SchemaMap) (k : String) :
    lookupA (spreadMerge a b) k = pickO (lookupA b k) (lookupA a k) := by
  unfold spreadMerge
  rw [lookupA_append, lookupA_mapRight, lookupA_filterKey b (fun x => !hasKey a x) k]
  cases ha : lookupA a k with
  | some v =>
      have : hasKey a k = true := by unfold hasKey; rw [ha]
      simp [this, pickO]
      cases hb : lookupA b k <;> simp [pickO]
  | none =>
      have : hasKey a k = false := lookupA_none_hasKey ha
      simp [this, pickO]
      cases hb : lookupA b k <;> simp [pickO]

theorem optionalize_lookup_some {m : SchemaMap} {k : String} {s : FieldSchema}
    (h : lookupA m k = some s) (hopt : s.hasOptionalFn = true) :
    lookupA (optionalize m) k = some (optionalOf s) := by
  induction m with
  | nil => simp [lookupA] at h
  | cons hd tl ih =>
      obtain ⟨k0, s0⟩ := hd
      by_cases hk : k0 = k
      · subst hk
        simp [lookupA] at h
        subst h
        simp [optionalize, hopt, lookupA]
      · simp [lookupA, hk] at h
        by_cases ho : s0.hasOptionalFn
        · simp [optionalize, ho, lookupA, hk]
          exact ih h
        · simp [optionalize, ho]
          exact ih h

theorem optionalize_lookup_none {m : SchemaMap} {k : String}
    (h : lookupA m k = none) : lookupA (optionalize m) k = none := by
  induction m with
  | nil => simp [optionalize, lookupA]
  | cons hd tl ih =>
      obtain ⟨k0, s0⟩ := hd
      by_cases hk : k0 = k
      · subst hk
        simp [lookupA] at h
      · simp [lookupA, hk] at h
        by_cases ho : s0.hasOptionalFn
        · simp [optionalize, ho, lookupA, hk]
          exact ih h
        · simp [optionalize, ho]
          exact ih h

theorem optionalize_lookup_noopt {m : SchemaMap} {k : String} {s : FieldSchema}
    (hnd : nodupKeys m = true) (h : lookupA m k = some s)
    (hopt : s.hasOptionalFn = false) :
    lookupA (optionalize m) k = none := by
  induction m with
  | nil => simp [lookupA] at h
  | cons hd tl ih =>
      obtain ⟨k0, s0⟩ := hd
      simp [nodupKeys] at hnd
      by_cases hk : k0 = k
      · subst hk
        simp [lookupA] at h
        subst h
        simp [optionalize, hopt]
        exact optionalize_lookup_none (hasKey_false_lookupA hnd.1)
      · simp [lookupA, hk] at h
        by_cases ho : s0.hasOptionalFn
        · simp [optionalize, ho, lookupA, hk]
          exact ih hnd.2 h
        · simp [optionalize, ho]
          exact ih hnd.2 h

theorem optionalize_required_false {m : SchemaMap} {k : String} {s : FieldSchema}
    (h : lookupA (optionalize m) k = some s) : s.required = false := by
  induction m with
  | nil => simp [optionalize, lookupA] at h
  | cons hd tl ih =>
      obtain ⟨k0, s0⟩ := hd
      by_cases ho : s0.hasOptionalFn
      · by_cases hk : k0 = k
        · subst hk
          simp [optionalize, ho, lookupA] at h
          rw [show s = optionalOf s0 from h.symm]
          rfl
        · simp [optionalize, ho, lookupA, hk] at h
          exact ih h
      · simp [optionalize, ho] at h
        exact ih h

theorem mem_fieldErrorList {obj : Obj} {schema : SchemaMap} {k : String}
    {s : FieldSchema} {item : ErrItem}
    (hmem : (k, s) ∈ schema) (hit : item ∈ fieldErrors obj k s) :
    item ∈ fieldErrorList obj schema := by
  induction schema with
  | nil => simp at hmem
  | cons hd tl ih =>
      obtain ⟨k0, s0⟩ := hd
      rcases List.mem_cons.mp hmem with heq | htl
      · have h1 : k = k0 := congrArg Prod.fst heq
        have h2 : s = s0 := congrArg Prod.snd heq
        subst h1; subst h2
        simp [fieldErrorList]
        exact Or.inl hit
      · simp [fieldErrorList]
        exact Or.inr (ih htl)

theorem fieldErrorList_nil {obj : Obj} {schema : SchemaMap}
    (h : ∀ p, p ∈ schema → fieldErrors obj p.1 p.2 = []) :
    fieldErrorList obj schema = [] := by
  induction schema with
  | nil => rfl
  | cons hd tl ih =>
      obtain ⟨k0, s0⟩ := hd
      simp [fieldErrorList]
      constructor
      · exact h (k0, s0) (List.mem_cons_self _ _)
      · exact ih (fun p hp => h p (List.mem_cons_of_mem _ hp))

theorem validateS_all_errors {schema : SchemaMap} {obj : Obj} {opts : JoiOptions}
    (hab : opts.abortEarly = false) {k : String} {s : FieldSchema} {item : ErrItem}
    (hmem : (k, s) ∈ schema) (hit : item ∈ fieldErrors obj k s) :
    ∃ errs, (validateS schema obj opts).1 = some errs ∧ item ∈ errs := by
  have hin : item ∈ fieldErrorList obj schema := mem_fieldErrorList hmem hit
  have hcoll : collectErrors schema obj opts
      = fieldErrorList obj schema ++ unknownErrors schema obj opts.allowUnknown := by
    unfold collectErrors
    rw [hab]
    simp
  have hinc : item ∈ collectErrors schema obj opts := by
    rw [hcoll]
    exact List.mem_append_left _ hin
  unfold validateS
  cases hc : collectErrors schema obj opts with
  | nil => rw [hc] at hinc; simp at hinc
  | cons e rest =>
      refine ⟨e :: rest, rfl, ?_⟩
      rw [hc] at hinc
      exact hinc

theorem validateS_strip {schema : SchemaMap} {obj : Obj} {opts : JoiOptions}
    (hsu : opts.stripUnknown = true) {out : Obj}
    (hout : (validateS schema obj opts).2 = some out) :
    ∀ p, p ∈ out → hasKey schema p.1 = true := by
  unfold validateS at hout
  cases hc : collectErrors schema obj opts with
  | nil =>
      rw [hc] at hout
      simp at hout
      intro p hp
      rw [← hout] at hp
      unfold stripValue at hp
      rw [hsu] at hp
      simp at hp
      exact hp.2
  | cons e rest =>
      rw [hc] at hout
      simp at hout

theorem validateS_success {schema : SchemaMap} {obj : Obj} {opts : JoiOptions}
    (hau : opts.allowUnknown = true)
    (h : ∀ p, p ∈ schema → fieldErrors obj p.1 p.2 = []) :
    (validateS schema obj opts).1 = none := by
  have hfl : fieldErrorList obj schema = [] := fieldErrorList_nil h
  have hcoll : collectErrors schema obj opts = [] := by
    unfold collectErrors unknownErrors
    rw [hau, hfl]
    simp
  unfold validateS
  rw [hcoll]

theorem validateS_fail {schema : SchemaMap} {obj : Obj} {opts : JoiOptions}
    {k : String} {s : FieldSchema} {item : ErrItem}
    (hmem : (k, s) ∈ schema) (hit : item ∈ fieldErrors obj k s) :
    (validateS schema obj opts).1 ≠ none := by
  have hin : item ∈ fieldErrorList obj schema := mem_fieldErrorList hmem hit
  unfold validateS
  cases hc : collectErrors schema obj opts with
  | nil =>
      unfold collectErrors at hc
      cases hab : opts.abortEarly with
      | false =>
          rw [hab] at hc
          simp at hc
          rw [hc.1] at hin
          simp at hin
      | true =>
          rw [hab] at hc
          simp at hc
          rw [hc.1] at hin
          simp at hin
  | cons e rest => simp

theorem buildMaps_fst_not_mem (store : PropStore) (idProps : List String) :
    ∀ (props : List (String × Nat)) (mId mModel : SchemaMap) (k : String),
      hasKey props k = false →
      lookupA (buildMaps store idProps props mId mModel).1 k = lookupA mId k := by
  intro props
  induction props with
  | nil => intro mId mModel k _; rfl
  | cons hd tl ih =>
      intro mId mModel k h
      obtain ⟨k0, r0⟩ := hd
      have hk0 : k0 ≠ k := by
        intro hc
        subst hc
        unfold hasKey lookupA at h
        simp at h
      have htl : hasKey tl k = false := by
        unfold hasKey at h ⊢
        unfold lookupA at h
        rw [if_neg hk0] at h
        exact h
      by_cases hid : idProps.contains k0
      · unfold buildMaps
        rw [if_pos hid]
        rw [ih _ _ _ htl]
        rw [lookupA_assocSet]
        rw [if_neg hk0]
      · unfold buildMaps
        rw [if_neg hid]
        exact ih _ _ _ htl

theorem buildMaps_snd_not_mem (store : PropStore) (idProps : List String) :
    ∀ (props : List (String × Nat)) (mId mModel : SchemaMap) (k : String),
      hasKey props k = false →
      lookupA (buildMaps store idProps props mId mModel).2 k = lookupA mModel k := by
  intro props
  induction props with
  | nil => intro mId mModel k _; rfl
  | cons hd tl ih =>
      intro mId mModel k h
      obtain ⟨k0, r0⟩ := hd
      have hk0 : k0 ≠ k := by
        intro hc
        subst hc
        unfold hasKey lookupA at h
        simp at h
      have htl : hasKey tl k = false := by
        unfold hasKey at h ⊢
        unfold lookupA at h
        rw [if_neg hk0] at h
        exact h
      by_cases hid : idProps.contains k0
      · unfold buildMaps
        rw [if_pos hid]
        exact ih _ _ _ htl
      · unfold buildMaps
        rw [if_neg hid]
        rw [ih _ _ _ htl]
        rw [lookupA_assocSet]
        rw [if_neg hk0]

theorem buildMaps_lookup_id (store : PropStore) (idProps : List String) :
    ∀ (props : List (String × Nat)) (mId mModel : SchemaMap) (k : String) (r : Nat),
      nodupKeys props = true →
      lookupA props k = some r →
      idProps.contains k = true →
      lookupA (buildMaps store idProps props mId mModel).1 k
        = some (buildPropSchema (getProp store r)) := by
  intro props
  induction props with
  | nil => intro mId mModel k r _ h _; simp [lookupA] at h
  | cons hd tl ih =>
      intro mId mModel k r hnd h hid
      obtain ⟨k0, r0⟩ := hd
      simp [nodupKeys] at hnd
      by_cases hk : k0 = k
      · subst hk
        simp [lookupA] at h
        subst h
        unfold buildMaps
        rw [if_pos hid]
        rw [buildMaps_fst_not_mem store idProps tl _ _ _ hnd.1]
        rw [lookupA_assocSet]
        simp
      · simp [lookupA, hk] at h
        unfold buildMaps
        by_cases hid0 : idProps.contains k0
        · rw [if_pos hid0]
          exact ih _ _ _ _ hnd.2 h hid
        · rw [if_neg hid0]
          exact ih _ _ _ _ hnd.2 h hid

theorem buildMaps_lookup_model (store : PropStore) (idProps : List String) :
    ∀ (props : List (String × Nat)) (mId mModel : SchemaMap) (k : String) (r : Nat),
      nodupKeys props = true →
      lookupA props k = some r →
      idProps.contains k = false →
      lookupA (buildMaps store idProps props mId mModel).2 k
        = some (buildPropSchema (getProp store r)) := by
  intro props
  induction props with
  | nil => intro mId mModel k r _ h _; simp [lookupA] at h
  | cons hd tl ih =>
      intro mId mModel k r hnd h hid
      obtain ⟨k0, r0⟩ := hd
      simp [nodupKeys] at hnd
      by_cases hk : k0 = k
      · subst hk
        simp [lookupA] at h
        subst h
        unfold buildMaps
        rw [if_neg (by rw [hid]; exact Bool.false_ne_true)]
        rw [buildMaps_snd_not_mem store idProps tl _ _ _ hnd.1]
        rw [lookupA_assocSet]
        simp
      · simp [lookupA, hk] at h
        unfold buildMaps
        by_cases hid0 : idProps.contains k0
        · rw [if_pos hid0]
          exact ih _ _ _ _ hnd.2 h hid
        · rw [if_neg hid0]
          exact ih _ _ _ _ hnd.2 h hid

theorem buildMaps_id_untouched (store : PropStore) (idProps : List String) :
    ∀ (props : List (String × Nat)) (mId mModel : SchemaMap) (k : String),
      nodupKeys props = true →
      idProps.contains k = false →
      lookupA (buildMaps store idProps props mId mModel).1 k = lookupA mId k := by
  intro props
  induction props with
  | nil => intro mId mModel k _ _; rfl
  | cons hd tl ih =>
      intro mId mModel k hnd hid
      obtain ⟨k0, r0⟩ := hd
      simp [nodupKeys] at hnd
      unfold buildMaps
      by_cases hid0 : idProps.contains k0
      · rw [if_pos hid0]
        rw [ih _ _ _ hnd.2 hid]
        rw [lookupA_assocSet]
        have hk0 : k0 ≠ k := by
          intro hc
          subst hc
          rw [hid0] at hid
          simp at hid
        rw [if_neg hk0]
      · rw [if_neg hid0]
        exact ih _ _ _ hnd.2 hid

theorem buildMaps_model_untouched (store : PropStore) (idProps : List String) :
    ∀ (props : List (String × Nat)) (mId mModel : SchemaMap) (k : String),
      nodupKeys props = true →
      idProps.contains k = true →
      lookupA (buildMaps store idProps props mId mModel).2 k = lookupA mModel k := by
  intro props
  induction props with
  | nil => intro mId mModel k _ _; rfl
  | cons hd tl ih =>
      intro mId mModel k hnd hid
      obtain ⟨k0, r0⟩ := hd
      simp [nodupKeys] at hnd
      unfold buildMaps
      by_cases hid0 : idProps.contains k0
      · rw [if_pos hid0]
        exact ih _ _ _ hnd.2 hid
      · rw [if_neg hid0]
        rw [ih _ _ _ hnd.2 hid]
        rw [lookupA_assocSet]
        have hk0 : k0 ≠ k := by
          intro hc
          subst hc
          exact hid0 hid
        rw [if_neg hk0]

theorem lookupA_delete (reg : Registry) (cid : ClassId) (a : ClassId) :
    lookupA (deleteClassValidationMetadata reg cid) a
      = if a = cid then none else lookupA reg a := by
  unfold deleteClassValidationMetadata
  have h := lookupA_filterKey reg (fun x => x != cid) a
  by_cases hac : a = cid
  · subst hac
    rw [h]
    simp
  · rw [h]
    have : (a != cid) = true := by
      simp [bne]
      exact hac
    rw [this]
    simp [hac]

theorem firstMeta_none {reg : Registry} {chain : List ClassId}
    (h : ∀ a, a ∈ chain → lookupA reg a = none) : firstMeta reg chain = none := by
  induction chain with
  | nil => rfl
  | cons hd tl ih =>
      unfold firstMeta
      rw [h hd (List.mem_cons_self _ _)]
      exact ih (fun a ha => h a (List.mem_cons_of_mem _ ha))

theorem translateOne_cb_total (vf mf : JVal → Except VErr Obj) (x : JVal) :
    translateOne vf mf true true x
      = StepResult.ret (translateCb vf mf x).1 (translateCb vf mf x).2 := by
  unfold translateCb translateOne
  cases hv : vf x with
  | error e => simp [hv]
  | ok model =>
      cases hm : mf (JVal.vObj model) with
      | ok m => simp [hv, hm]
      | error e => simp [hv, hm]

theorem translateList_cb (vf mf : JVal → Except VErr Obj) (elems : List JVal) :
    translateList (fun x => translateOne vf mf true true x) elems
      = ListStep.retL (elems.map (fun x => (translateCb vf mf x).1)) (flatLog vf mf elems) := by
  induction elems with
  | nil => rfl
  | cons hd tl ih =>
      unfold translateList
      rw [translateOne_cb_total]
      rw [ih]
      rfl

theorem translateList_abort (f : JVal → StepResult) (e : VErr) :
    ∀ (pre : List JVal) (bad : JVal) (rest : List JVal),
      (∀ x, x ∈ pre → ∃ m, f x = StepResult.ret m []) →
      f bad = StepResult.thrown e →
      translateList f (pre ++ bad :: rest) = ListStep.thrownL e [] := by
  intro pre
  induction pre with
  | nil =>
      intro bad rest _ hbad
      rw [List.nil_append]
      simp only [translateList]
      rw [hbad]
  | cons hd tl ih =>
      intro bad rest hpre hbad
      obtain ⟨m, hm⟩ := hpre hd (List.mem_cons_self _ _)
      have hrec := ih bad rest (fun x hx => hpre x (List.mem_cons_of_mem _ hx)) hbad
      rw [List.cons_append]
      simp only [translateList]
      rw [hm, hrec]
      rfl

/-- Claim C2: for every JoiModelValidator built from `(schemaMapId,
schemaMapModel)`, the compiled whole schema maps each field name to the
model-field constraint as declared when one exists, else to the
optionalized identifier constraint (the spread union of the two sides);
the compiled partial schema maps each name to the optionalized model
constraint when one exists, else to the identifier constraint as
declared; and every optionalized entry has its presence requirement
dropped. -/
theorem compiled_schema_union (v : JoiModelValidator) (k : String) :
    lookupA v.compiledWhole k
        = pickO (lookupA v.schemaMapModel k) (lookupA (optionalize v.schemaMapId) k)
    ∧ lookupA v.compiledPatch k
        = pickO (lookupA (optionalize v.schemaMapModel) k) (lookupA v.schemaMapId k)
    ∧ (∀ s, lookupA (optionalize v.schemaMapId) k = some s → s.required = false)
    ∧ (∀ s, lookupA (optionalize v.schemaMapModel) k = some s → s.required = false) := by
  refine ⟨?_, ?_, ?_, ?_⟩
  · exact spreadMerge_lookup (optionalize v.schemaMapId) v.schemaMapModel k
  · exact spreadMerge_lookup v.schemaMapId (optionalize v.schemaMapModel) k
  · intro s hs
    exact optionalize_required_false hs
  · intro s hs
    exact optionalize_required_false hs

/-- A required identifier constraint for the C2 witness validator. -/
def cs2id : FieldSchema :=
  { required := true, hasOptionalFn := true, jtype := JType.tNumber
    minLen := none, maxLen := none, minNum := none, maxNum := none }

/-- A required model-field constraint for the C2 witness validator. -/
def cs2name : FieldSchema :=
  { required := true, hasOptionalFn := true, jtype := JType.tString
    minLen := none, maxLen := none, minNum := none, maxNum := none }

/-- Witness for claim C2 at a concrete validator. -/
theorem compiled_schema_union_witness :
    lookupA (JoiModelValidator.compiledWhole (mkValidator [("theID", cs2id)] [("name", cs2name)] none)) "theID"
        = pickO (lookupA (mkValidator [("theID", cs2id)] [("name", cs2name)] none).schemaMapModel "theID")
            (lookupA (optionalize (mkValidator [("theID", cs2id)] [("name", cs2name)] none).schemaMapId) "theID")
    ∧ (optionalOf cs2id).required = false :=
  ⟨(compiled_schema_union (mkValidator [("theID", cs2id)] [("name", cs2name)] none) "theID").1,
   (compiled_schema_union (mkValidator [("theID", cs2id)] [("name", cs2name)] none) "theID").2.2.1
     (optionalOf cs2id) (by decide)⟩

/-- A required constraint whose schema object lacks an `optional`
method, for claim C4. -/
def c4noOpt : FieldSchema :=
  { required := true, hasOptionalFn := false, jtype := JType.tString
    minLen := none, maxLen := none, minNum := none, maxNum := none }

/-- Claim C4 counterexample: a required field whose constraint does not
support the optionalize transformation is dropped from the optionalized
map and hence absent from the derived whole and partial schemas, rather
than being left required with its original constraint. -/
theorem optionalize_unsupported_counterexample :
    c4noOpt.required = true
    ∧ lookupA [("a", c4noOpt)] "a" = some c4noOpt
    ∧ lookupA (optionalize [("a", c4noOpt)]) "a" = none
    ∧ lookupA (compileWholeSchema [("a", c4noOpt)] []) "a" = none
    ∧ lookupA (compilePatchSchema [] [("a", c4noOpt)]) "a" = none := by
  decide

/-- Claim C4 (amended): optionalizing preserves every constraint
component except the presence requirement for fields supporting the
transformation; a field whose constraint does not support it is omitted
from the optionalized schema map entirely. -/
theorem optionalize_characterization
    (m : SchemaMap) (k : String) (s : FieldSchema)
    (hnd : nodupKeys m = true) (hk : lookupA m k = some s) :
    (s.hasOptionalFn = true → lookupA (optionalize m) k = some (optionalOf s))
    ∧ (s.hasOptionalFn = false → lookupA (optionalize m) k = none)
    ∧ optionalOf s
        = { required := false, hasOptionalFn := s.hasOptionalFn, jtype := s.jtype
            minLen := s.minLen, maxLen := s.maxLen, minNum := s.minNum, maxNum := s.maxNum } := by
  refine ⟨?_, ?_, rfl⟩
  · intro h
    exact optionalize_lookup_some hk h
  · intro h
    exact optionalize_lookup_noopt hnd hk h

/-- A bounded string constraint supporting `optional`, for the C4
witness. -/
def c4opt : FieldSchema :=
  { required := true, hasOptionalFn := true, jtype := JType.tString
    minLen := some 3, maxLen := some 10, minNum := none, maxNum := none }

/-- Witness for claim C4 at two concrete fields. -/
theorem optionalize_characterization_witness :
    lookupA (optionalize [("name", c4opt)]) "name" = some (optionalOf c4opt)
    ∧ lookupA (optionalize [("a", c4noOpt)]) "a" = none :=
  ⟨(optionalize_characterization [("name", c4opt)] "name" c4opt (by decide) (by decide)).1 (by decide),
   (optionalize_characterization [("a", c4noOpt)] "a" c4noOpt (by decide) (by decide)).2.1 (by decide)⟩

/-- A property-level declaration (a plain number type) for claim C1. -/
def c1PropMeta : PropMeta :=
  { type := TypeT.tyNumber, rules := [], rawSchema := none, ownerClass := 0 }

/-- The property-metadata store for claim C1. -/
def c1Store : PropStore := [c1PropMeta]

/-- A class-supplied string constraint for claim C1. -/
def c1Supplied : FieldSchema :=
  { required := true, hasOptionalFn := true, jtype := JType.tString
    minLen := none, maxLen := none, minNum := none, maxNum := none }

/-- Class metadata that supplies a non-empty schemaMapModel for "name"
while a property-level declaration for "name" also exists. -/
def c1Meta : ClassMeta :=
  { schemaMapId := [], schemaMapModel := [("name", c1Supplied)]
    props := [("name", 0)], idProps := [], joiOptions := none }

/-- Claim C1 counterexample: with a non-empty class-supplied
schemaMapModel, buildSchemaMapModel still consults the per-property
metadata and the property-level declaration replaces the class-supplied
entry of the same name. -/
theorem buildSchemaMapModel_counterexample :
    c1Meta.schemaMapModel ≠ []
    ∧ (buildSchemaMapModel c1Store c1Meta).2 ≠ c1Meta.schemaMapModel
    ∧ (buildSchemaMapModel c1Store c1Meta).2 = [("name", buildType TypeT.tyNumber)] := by
  decide

/-- Claim C1 (amended): buildSchemaMapModel always applies the
per-property computation, whether or not the class supplied non-empty
schema maps: each declared property's computed schema overwrites the
same-named entry of the supplied id map (when the property is an
identifier) or model map (otherwise), while supplied entries for names
with no property-level declaration are preserved unchanged. -/
theorem buildSchemaMapModel_characterization
    (store : PropStore) (cm : ClassMeta) (k : String)
    (hnd : nodupKeys cm.props = true) :
    (∀ r, lookupA cm.props k = some r → cm.idProps.contains k = true →
        lookupA (buildSchemaMapModel store cm).1 k = some (buildPropSchema (getProp store r))
        ∧ lookupA (buildSchemaMapModel store cm).2 k = lookupA cm.schemaMapModel k)
    ∧ (∀ r, lookupA cm.props k = some r → cm.idProps.contains k = false →
        lookupA (buildSchemaMapModel store cm).2 k = some (buildPropSchema (getProp store r))
        ∧ lookupA (buildSchemaMapModel store cm).1 k = lookupA cm.schemaMapId k)
    ∧ (lookupA cm.props k = none →
        lookupA (buildSchemaMapModel store cm).1 k = lookupA cm.schemaMapId k
        ∧ lookupA (buildSchemaMapModel store cm).2 k = lookupA cm.schemaMapModel k) := by
  unfold buildSchemaMapModel
  refine ⟨?_, ?_, ?_⟩
  · intro r hr hid
    exact ⟨buildMaps_lookup_id store cm.idProps cm.props cm.schemaMapId cm.schemaMapModel k r hnd hr hid,
           buildMaps_model_untouched store cm.idProps cm.props cm.schemaMapId cm.schemaMapModel k hnd hid⟩
  · intro r hr hid
    exact ⟨buildMaps_lookup_model store cm.idProps cm.props cm.schemaMapId cm.schemaMapModel k r hnd hr hid,
           buildMaps_id_untouched store cm.idProps cm.props cm.schemaMapId cm.schemaMapModel k hnd hid⟩
  · intro hnone
    have hhk : hasKey cm.props k = false := lookupA_none_hasKey hnone
    exact ⟨buildMaps_fst_not_mem store cm.idProps cm.props cm.schemaMapId cm.schemaMapModel k hhk,
           buildMaps_snd_not_mem store cm.idProps cm.props cm.schemaMapId cm.schemaMapModel k hhk⟩

/-- A required-number property declaration for the C1 witness. -/
def c1IdPropMeta : PropMeta :=
  { type := TypeT.tyNumber, rules := [RuleT.setRequired], rawSchema := none, ownerClass := 0 }

/-- The store for the C1 witness. -/
def c1StoreW : PropStore := [c1PropMeta, c1IdPropMeta]

/-- Class metadata for the C1 witness: supplied entries for "theID",
"name" and "addr"; property declarations for "name" and "theID". -/
def c1MetaW : ClassMeta :=
  { schemaMapId := [("theID", c1Supplied)]
    schemaMapModel := [("name", c1Supplied), ("addr", c1Supplied)]
    props := [("name", 0), ("theID", 1)], idProps := ["theID"], joiOptions := none }

/-- Witness for claim C1 at a concrete class metadata record. -/
theorem buildSchemaMapModel_characterization_witness :
    lookupA (buildSchemaMapModel c1StoreW c1MetaW).2 "name"
        = some (buildPropSchema (getProp c1StoreW 0))
    ∧ lookupA (buildSchemaMapModel c1StoreW c1MetaW).1 "theID"
        = some (buildPropSchema (getProp c1StoreW 1))
    ∧ lookupA (buildSchemaMapModel c1StoreW c1MetaW).2 "addr" = some c1Supplied :=
  ⟨((buildSchemaMapModel_characterization c1StoreW c1MetaW "name" (by decide)).2.1 0
      (by decide) (by decide)).1,
   ((buildSchemaMapModel_characterization c1StoreW c1MetaW "theID" (by decide)).1 1
      (by decide) (by decide)).1,
   by
     have h := ((buildSchemaMapModel_characterization c1StoreW c1MetaW "addr" (by decide)).2.2
       (by decide)).2
     rw [h]
     decide⟩

/-- The ancestor's per-property metadata object for claim C5. -/
def c5PropMeta : PropMeta :=
  { type := TypeT.tyString, rules := [], rawSchema := none, ownerClass := 1 }

/-- The property-metadata store for claim C5. -/
def c5Store : PropStore := [c5PropMeta]

/-- The ancestor's class metadata for claim C5: one property "p" whose
metadata lives at store reference 0. -/
def c5AncMeta : ClassMeta :=
  { schemaMapId := [], schemaMapModel := [], props := [("p", 0)]
    idProps := [], joiOptions := none }

/-- The registry for claim C5: only the ancestor (class 1) has
metadata. -/
def c5Reg : Registry := [(1, c5AncMeta)]

/-- The subclass for claim C5: class 2 whose ancestor chain is [1]. -/
def c5Class : ClassT := { self := 2, ancestors := [1] }

/-- Claim C5 counterexample: the metadata returned for a subclass
without its own record holds the very same per-property reference as
the ancestor's record, so mutating that entry through the clone (here:
appending a rule to its rules list) changes what the ancestor's stored
metadata denotes — the clone is not a deep, independent copy. -/
theorem cloneMetadata_shallow_counterexample :
    lookupA (getClassValidationMetadata c5Reg c5Class).props "p" = some 0
    ∧ lookupA c5AncMeta.props "p" = some 0
    ∧ readPropRules c5Store c5AncMeta "p" = some []
    ∧ readPropRules
        (modifyStore c5Store 0 (fun pm => { pm with rules := pm.rules ++ [RuleT.setRequired] }))
        c5AncMeta "p" = some [RuleT.setRequired] := by
  decide

/-- Claim C5 (amended): for a class without its own metadata whose
ancestor chain has a record, getClassValidationMetadata returns
cloneMetadata of the nearest ancestor's record; the clone's top-level
containers equal the ancestor's (entry-for-entry, sharing the
per-property references), and registering any metadata under the
subclass's own identity leaves every other class's registry entry
unchanged — but in-place mutation of a shared per-property object is
visible through the ancestor, as the counterexample shows. -/
theorem getClassValidationMetadata_clone
    (reg : Registry) (c : ClassT) (m : ClassMeta)
    (hown : lookupA reg c.self = none)
    (hanc : firstMeta reg c.ancestors = some m) :
    getClassValidationMetadata reg c = cloneMetadata m
    ∧ (cloneMetadata m).props = m.props
    ∧ (cloneMetadata m).schemaMapId = m.schemaMapId
    ∧ (cloneMetadata m).schemaMapModel = m.schemaMapModel
    ∧ (cloneMetadata m).idProps = m.idProps
    ∧ (∀ meta2 a, a ≠ c.self →
        lookupA (setClassValidationMetadata reg c.self meta2) a = lookupA reg a) := by
  refine ⟨?_, rfl, rfl, rfl, rfl, ?_⟩
  · unfold getClassValidationMetadata
    rw [hown, hanc]
  · intro meta2 a hne
    unfold setClassValidationMetadata
    rw [lookupA_assocSet]
    rw [if_neg (fun hc => hne hc.symm)]

/-- Witness for claim C5 at the concrete registry. -/
theorem getClassValidationMetadata_clone_witness :
    getClassValidationMetadata c5Reg c5Class = cloneMetadata c5AncMeta
    ∧ lookupA (setClassValidationMetadata c5Reg c5Class.self createClassValidationMetadata) 1
        = some c5AncMeta := by
  constructor
  · exact (getClassValidationMetadata_clone c5Reg c5Class c5AncMeta (by decide) (by decide)).1
  · have h := (getClassValidationMetadata_clone c5Reg c5Class c5AncMeta (by decide) (by decide)).2.2.2.2.2
      createClassValidationMetadata 1 (by decide)
    rw [h]
    decide

/-- Class metadata with an identifier-property marker but no property
rules and no supplied maps, for claim C10. -/
def c10Meta : ClassMeta :=
  { schemaMapId := [], schemaMapModel := [], props := [], idProps := ["theID"]
    joiOptions := none }

/-- The registry for the C10 counterexample. -/
def c10Reg : Registry := [(5, c10Meta)]

/-- The class for the C10 counterexample. -/
def c10Class : ClassT := { self := 5, ancestors := [] }

/-- Claim C10 counterexample: when both built schema maps are empty,
createJoiValidator returns the null sentinel before reaching the
clean-up step, so the class's metadata association is NOT deleted —
contradicting the claim that deletion happens whether a validator or
the null sentinel is returned. -/
theorem createJoiValidator_counterexample :
    (createJoiValidator [] c10Reg c10Class none).1 = none
    ∧ (createJoiValidator [] c10Reg c10Class none).2 = c10Reg
    ∧ lookupA ((createJoiValidator [] c10Reg c10Class none).2) 5 = some c10Meta := by
  decide

theorem createJoiValidator_empty_meta (store : PropStore) (reg : Registry) (c : ClassT)
    (opt : Option PartOptions)
    (hown : lookupA reg c.self = none)
    (hanc : firstMeta reg c.ancestors = none) :
    (createJoiValidator store reg c opt).1 = none := by
  have hmeta : getClassValidationMetadata reg c = createClassValidationMetadata := by
    unfold getClassValidationMetadata
    rw [hown, hanc]
  unfold createJoiValidator
  rw [hmeta]
  rfl

/-- Claim C10 (amended): createJoiValidator deletes the class's
metadata association exactly when it returns a validator; when it
returns the null sentinel the registry is left unchanged.  Consequently
a second call for the same class, with no intervening declarations and
no ancestor holding metadata, finds empty schema maps and returns null
even when the first call returned a validator. -/
theorem createJoiValidator_cleanup
    (store : PropStore) (reg : Registry) (c : ClassT) (opt : Option PartOptions) :
    (∀ v, (createJoiValidator store reg c opt).1 = some v →
        (createJoiValidator store reg c opt).2 = deleteClassValidationMetadata reg c.self)
    ∧ ((createJoiValidator store reg c opt).1 = none →
        (createJoiValidator store reg c opt).2 = reg)
    ∧ (∀ v (opt2 : Option PartOptions), (createJoiValidator store reg c opt).1 = some v →
        (∀ a, a ∈ c.ancestors → lookupA reg a = none) →
        (createJoiValidator store ((createJoiValidator store reg c opt).2) c opt2).1 = none) := by
  by_cases hcond : ((buildSchemaMapModel store (getClassValidationMetadata reg c)).1.isEmpty
      && (buildSchemaMapModel store (getClassValidationMetadata reg c)).2.isEmpty) = true
  · have hres : createJoiValidator store reg c opt = (none, reg) := by
      unfold createJoiValidator
      rw [if_pos hcond]
    refine ⟨?_, ?_, ?_⟩
    · intro v hv
      rw [hres] at hv
      simp at hv
    · intro _
      rw [hres]
    · intro v opt2 hv _
      rw [hres] at hv
      simp at hv
  · have hres : createJoiValidator store reg c opt
        = (some (mkValidator (buildSchemaMapModel store (getClassValidationMetadata reg c)).1
              (buildSchemaMapModel store (getClassValidationMetadata reg c)).2
              (match opt with
               | some o => some o
               | none => (getClassValidationMetadata reg c).joiOptions)),
           deleteClassValidationMetadata reg c.self) := by
      unfold createJoiValidator
      rw [if_neg hcond]
    refine ⟨?_, ?_, ?_⟩
    · intro v _
      rw [hres]
    · intro hv
      rw [hres] at hv
      simp at hv
    · intro v opt2 _ hanc
      have h2 : (createJoiValidator store reg c opt).2 = deleteClassValidationMetadata reg c.self := by
        rw [hres]
      rw [h2]
      apply createJoiValidator_empty_meta
      · rw [lookupA_delete]
        simp
      · apply firstMeta_none
        intro a ha
        rw [lookupA_delete]
        by_cases hac : a = c.self
        · rw [if_pos hac]
        · rw [if_neg hac]
          exact hanc a ha

/-- A property declaration for the C10 witness class. -/
def c10PropMetaW : PropMeta :=
  { type := TypeT.tyString, rules := [RuleT.setRequired], rawSchema := none, ownerClass := 7 }

/-- The store for the C10 witness. -/
def c10StoreW : PropStore := [c10PropMetaW]

/-- Class metadata with one declared property, for the C10 witness. -/
def c10MetaW : ClassMeta :=
  { schemaMapId := [], schemaMapModel := [], props := [("name", 0)], idProps := []
    joiOptions := none }

/-- The registry for the C10 witness. -/
def c10RegW : Registry := [(7, c10MetaW)]

/-- The class for the C10 witness. -/
def c10ClassW : ClassT := { self := 7, ancestors := [] }

/-- Witness for claim C10: the first call returns a validator; the
second call, on the registry the first call left behind, returns the
null sentinel. -/
theorem createJoiValidator_cleanup_witness :
    (createJoiValidator c10StoreW c10RegW c10ClassW none).1
        = some (mkValidator [] [("name", buildPropSchema (getProp c10StoreW 0))] none)
    ∧ (createJoiValidator c10StoreW
        ((createJoiValidator c10StoreW c10RegW c10ClassW none).2) c10ClassW none).1 = none := by
  constructor
  · decide
  · exact (createJoiValidator_cleanup c10StoreW c10RegW c10ClassW none).2.2
      (mkValidator [] [("name", buildPropSchema (getProp c10StoreW 0))] none) none
      (by decide)
      (by intro a ha; cases ha)

/-- Claim C3: for a model field declared required (and supporting
`optional`), an input object missing that field passes partial
validation (error = null) provided every other field of the partial
schema is satisfied, while whole validation rejects the same object
(error is non-null). -/
theorem patch_accepts_whole_rejects
    (mId mModel : SchemaMap) (f : String) (s : FieldSchema) (obj : Obj)
    (hf : lookupA mModel f = some s)
    (hreq : s.required = true)
    (hopt : s.hasOptionalFn = true)
    (habs : isAbsent obj f = true)
    (hnd : nodupKeys (compilePatchSchema mId mModel) = true)
    (hothers : (compilePatchSchema mId mModel).all
        (fun p => (p.1 == f) || (fieldErrors obj p.1 p.2).isEmpty) = true) :
    ((mkValidator mId mModel none).patch obj {}).1 = none
    ∧ ((mkValidator mId mModel none).whole obj {}).1 ≠ none := by
  have hgf : getField obj f = none := by
    unfold isAbsent at habs
    cases hg : getField obj f with
    | none => rfl
    | some v => rw [hg] at habs; simp at habs
  constructor
  · apply validateS_success
    · rfl
    · intro p hp
      by_cases hpf : p.1 = f
      · have hlp : lookupA (compilePatchSchema mId mModel) f = some p.2 := by
          have := mem_lookupA_nodup hnd (show (p.1, p.2) ∈ compilePatchSchema mId mModel from hp)
          rw [hpf] at this
          exact this
        have hlo : lookupA (compilePatchSchema mId mModel) f = some (optionalOf s) := by
          unfold compilePatchSchema
          rw [spreadMerge_lookup]
          rw [optionalize_lookup_some hf hopt]
          rfl
        have hps : p.2 = optionalOf s := by
          rw [hlp] at hlo
          exact Option.some_injective _ hlo
        rw [hpf, hps]
        unfold fieldErrors
        rw [hgf]
        have : (optionalOf s).required = false := rfl
        rw [this]
        simp
      · have hall := List.all_eq_true.mp hothers p hp
        have hbeq : (p.1 == f) = false := by
          simp [hpf]
        rw [hbeq] at hall
        simp at hall
        exact hall
  · have hw : lookupA (compileWholeSchema mId mModel) f = some s := by
      unfold compileWholeSchema
      rw [spreadMerge_lookup, hf]
      rfl
    have hmem := lookupA_mem hw
    have herr : (f, "required") ∈ fieldErrors obj f s := by
      unfold fieldErrors
      rw [hgf, hreq]
      simp
    exact validateS_fail hmem herr

/-- A required-number identifier constraint for the C3 witness. -/
def c3IdS : FieldSchema :=
  { required := true, hasOptionalFn := true, jtype := JType.tNumber
    minLen := none, maxLen := none, minNum := some 1, maxNum := none }

/-- A required-string model constraint for the C3 witness. -/
def c3NameS : FieldSchema :=
  { required := true, hasOptionalFn := true, jtype := JType.tString
    minLen := some 3, maxLen := some 10, minNum := none, maxNum := none }

/-- Witness for claim C3: an object supplying only the identifier is
accepted by partial validation and rejected by whole validation. -/
theorem patch_accepts_whole_rejects_witness :
    ((mkValidator [("theID", c3IdS)] [("name", c3NameS)] none).patch
        [("theID", JVal.vNum 5)] {}).1 = none
    ∧ ((mkValidator [("theID", c3IdS)] [("name", c3NameS)] none).whole
        [("theID", JVal.vNum 5)] {}).1 ≠ none :=
  patch_accepts_whole_rejects [("theID", c3IdS)] [("name", c3NameS)] "name" c3NameS
    [("theID", JVal.vNum 5)]
    (by decide) (by decide) (by decide) (by decide) (by decide) (by decide)

/-- Claim C6: with no per-call overrides, whole and partial validation
collect every constraint violation into the returned error (not
fail-fast), a successful result contains no key outside the compiled
schema's declared keys (unknown properties allowed but stripped), an
object violating no declared field passes even when it carries unknown
keys, and per-call options replace the defaults key by key. -/
theorem default_options_behavior (mId mModel : SchemaMap) (obj : Obj) :
    (∀ k s item, (k, s) ∈ (mkValidator mId mModel none).compiledWhole →
        item ∈ fieldErrors obj k s →
        ∃ errs, ((mkValidator mId mModel none).whole obj {}).1 = some errs ∧ item ∈ errs)
    ∧ (∀ k s item, (k, s) ∈ (mkValidator mId mModel none).compiledPatch →
        item ∈ fieldErrors obj k s →
        ∃ errs, ((mkValidator mId mModel none).patch obj {}).1 = some errs ∧ item ∈ errs)
    ∧ (∀ out, ((mkValidator mId mModel none).whole obj {}).2 = some out →
        ∀ p, p ∈ out → hasKey (mkValidator mId mModel none).compiledWhole p.1 = true)
    ∧ (∀ out, ((mkValidator mId mModel none).patch obj {}).2 = some out →
        ∀ p, p ∈ out → hasKey (mkValidator mId mModel none).compiledPatch p.1 = true)
    ∧ (((mkValidator mId mModel none).compiledWhole.all
          (fun p => (fieldErrors obj p.1 p.2).isEmpty)) = true →
        ((mkValidator mId mModel none).whole obj {}).1 = none)
    ∧ (∀ d o, mergeOpts d o
        = { abortEarly := o.abortEarly.getD d.abortEarly
            allowUnknown := o.allowUnknown.getD d.allowUnknown
            stripUnknown := o.stripUnknown.getD d.stripUnknown }) := by
  refine ⟨?_, ?_, ?_, ?_, ?_, ?_⟩
  · intro k s item hmem hit
    exact validateS_all_errors rfl hmem hit
  · intro k s item hmem hit
    exact validateS_all_errors rfl hmem hit
  · intro out hout p hp
    exact validateS_strip rfl hout p hp
  · intro out hout p hp
    exact validateS_strip rfl hout p hp
  · intro hall
    apply validateS_success
    · rfl
    · intro p hp
      have h := List.all_eq_true.mp hall p hp
      simp at h
      exact h
  · intro d o
    rfl

/-- A required bounded-string model constraint for the C6 witness. -/
def c6NameS : FieldSchema :=
  { required := true, hasOptionalFn := true, jtype := JType.tString
    minLen := some 3, maxLen := some 10, minNum := none, maxNum := none }

/-- Witness for claim C6: a type-violating value is reported in the
collected error details, and a valid object carrying an unknown key
still passes. -/
theorem default_options_behavior_witness :
    (∃ errs, ((mkValidator [] [("name", c6NameS)] none).whole [("name", JVal.vNum 3)] {}).1
          = some errs ∧ ("name", "invalid") ∈ errs)
    ∧ ((mkValidator [] [("name", c6NameS)] none).whole
        [("name", JVal.vStr "Gennova"), ("junk", JVal.vBool true)] {}).1 = none :=
  ⟨(default_options_behavior [] [("name", c6NameS)] [("name", JVal.vNum 3)]).1
      "name" c6NameS ("name", "invalid") (by decide) (by decide),
   (default_options_behavior [] [("name", c6NameS)]
      [("name", JVal.vStr "Gennova"), ("junk", JVal.vBool true)]).2.2.2.2.1 (by decide)⟩

/-- Claim C7: in the single-object pipeline with validation enabled, a
validation failure and a shape-copy (mapping) failure take the
identical branch: with a callback, the error is delivered to it exactly
once and null is returned; without a callback, the error is thrown. -/
theorem translate_failure_branch
    (vf mf : JVal → Except VErr Obj) (hasCb : Bool) (src : JVal) (e : VErr) :
    (vf src = Except.error e →
        translateOne vf mf true hasCb src
          = (if hasCb then StepResult.ret none [e] else StepResult.thrown e))
    ∧ (∀ model, vf src = Except.ok model → mf (JVal.vObj model) = Except.error e →
        translateOne vf mf true hasCb src
          = (if hasCb then StepResult.ret none [e] else StepResult.thrown e)) := by
  constructor
  · intro h
    unfold translateOne
    simp [h]
  · intro model hv hm
    unfold translateOne
    simp [hv, hm]

/-- A validator stub that always fails, for the C7 witness. -/
def c7vfFail : JVal → Except VErr Obj := fun _ => Except.error [("name", "required")]

/-- A validator stub that always succeeds, for the C7 witness. -/
def c7vfOk : JVal → Except VErr Obj := fun _ => Except.ok []

/-- A shape copier stub that always fails, for the C7 witness. -/
def c7mfFail : JVal → Except VErr Obj := fun _ => Except.error [("map", "boom")]

/-- A shape copier stub that always succeeds, for the C7 witness. -/
def c7mfOk : JVal → Except VErr Obj := fun _ => Except.ok []

/-- Witness for claim C7: all four branch combinations at concrete
inputs. -/
theorem translate_failure_branch_witness :
    translateOne c7vfFail c7mfOk true true (JVal.vObj [])
        = StepResult.ret none [[("name", "required")]]
    ∧ translateOne c7vfFail c7mfOk true false (JVal.vObj [])
        = StepResult.thrown [("name", "required")]
    ∧ translateOne c7vfOk c7mfFail true true (JVal.vObj [])
        = StepResult.ret none [[("map", "boom")]]
    ∧ translateOne c7vfOk c7mfFail true false (JVal.vObj [])
        = StepResult.thrown [("map", "boom")] :=
  ⟨(translate_failure_branch c7vfFail c7mfOk true (JVal.vObj []) [("name", "required")]).1 rfl,
   (translate_failure_branch c7vfFail c7mfOk false (JVal.vObj []) [("name", "required")]).1 rfl,
   (translate_failure_branch c7vfOk c7mfFail true (JVal.vObj []) [("map", "boom")]).2 [] rfl rfl,
   (translate_failure_branch c7vfOk c7mfFail false (JVal.vObj []) [("map", "boom")]).2 [] rfl rfl⟩

/-- Claim C8: null, undefined, or non-object input to whole/partial
yields null without error; the result is the null output with no
callback delivery, whatever validator, shape copier, or callback
configuration is in place — none of them is consulted. -/
theorem tryTranslate_non_object
    (vf mf : JVal → Except VErr Obj) (classEnable : Bool) (override : Option Bool)
    (hasCb : Bool) (src : JVal)
    (h : isNonObject src = true) :
    tryTranslate vf mf classEnable override hasCb src = TransResult.retNull
    ∧ ∀ (vf2 mf2 : JVal → Except VErr Obj) (hasCb2 : Bool),
        tryTranslate vf2 mf2 classEnable override hasCb2 src = TransResult.retNull := by
  cases src with
  | vObj fields => simp [isNonObject] at h
  | vArr elems => simp [isNonObject] at h
  | vNull => exact ⟨rfl, fun _ _ _ => rfl⟩
  | vUndef => exact ⟨rfl, fun _ _ _ => rfl⟩
  | vStr s => exact ⟨rfl, fun _ _ _ => rfl⟩
  | vNum n => exact ⟨rfl, fun _ _ _ => rfl⟩
  | vBool b => exact ⟨rfl, fun _ _ _ => rfl⟩

/-- Witness for claim C8 at a string input. -/
theorem tryTranslate_non_object_witness :
    isNonObject (JVal.vStr "abc") = true
    ∧ tryTranslate (fun _ => Except.ok []) (fun _ => Except.ok []) true none true
        (JVal.vStr "abc") = TransResult.retNull :=
  ⟨rfl,
   (tryTranslate_non_object (fun _ => Except.ok []) (fun _ => Except.ok []) true none true
      (JVal.vStr "abc") rfl).1⟩

/-- Claim C9: for array input the single-object pipeline is applied
element-wise, producing results in input order; with a callback (and
validation on) a failing element yields null in its position, its error
is delivered, and the remaining elements are still processed; without a
callback the first failing element's thrown error aborts the whole
batch and no array is returned. -/
theorem tryTranslate_arr (vf mf : JVal → Except VErr Obj) (ce : Bool) (ov : Option Bool)
    (hc : Bool) (elems : List JVal) :
    tryTranslate vf mf ce ov hc (JVal.vArr elems)
      = match translateList (fun x => translateOne vf mf (ov.getD ce) hc x) elems with
        | ListStep.retL ms cb => TransResult.many ms cb
        | ListStep.thrownL e cb => TransResult.thrownR e cb := rfl

theorem array_translation_elementwise
    (vf mf : JVal → Except VErr Obj) (classEnable : Bool) (override : Option Bool)
    (elems : List JVal) (e : VErr) (pre : List JVal) (bad : JVal) (rest : List JVal) :
    (override.getD classEnable = true →
        tryTranslate vf mf classEnable override true (JVal.vArr elems)
          = TransResult.many (elems.map (fun x => (translateCb vf mf x).1))
              (flatLog vf mf elems))
    ∧ (∀ x e2, vf x = Except.error e2 → translateCb vf mf x = (none, [e2]))
    ∧ (elems = pre ++ bad :: rest →
        (∀ x, x ∈ pre →
            ∃ m, translateOne vf mf (override.getD classEnable) false x = StepResult.ret m []) →
        translateOne vf mf (override.getD classEnable) false bad = StepResult.thrown e →
        tryTranslate vf mf classEnable override false (JVal.vArr elems)
          = TransResult.thrownR e []) := by
  refine ⟨?_, ?_, ?_⟩
  · intro h
    rw [tryTranslate_arr, h]
    rw [translateList_cb]
  · intro x e2 hvx
    unfold translateCb translateOne
    simp [hvx]
  · intro heq hpre hbad
    subst heq
    rw [tryTranslate_arr]
    rw [translateList_abort (fun x => translateOne vf mf (override.getD classEnable) false x)
      e pre bad rest hpre hbad]

/-- A validator stub failing exactly on the empty object, for the C9
witness. -/
def c9vf : JVal → Except VErr Obj := fun j =>
  match j with
  | JVal.vObj [] => Except.error [("e", "bad")]
  | _ => Except.ok [("k", JVal.vNum 1)]

/-- A shape copier stub for the C9 witness. -/
def c9mf : JVal → Except VErr Obj := fun _ => Except.ok [("ok", JVal.vBool true)]

/-- The input array for the C9 witness: a good element, a failing one,
then another good one. -/
def c9elems : List JVal :=
  [JVal.vObj [("a", JVal.vNum 1)], JVal.vObj [], JVal.vObj [("b", JVal.vNum 2)]]

/-- Witness for claim C9: with a callback the failing middle element
yields null in place and the last element is still translated; without
a callback the batch is aborted by the first failure. -/
theorem array_translation_elementwise_witness :
    tryTranslate c9vf c9mf false (some true) true (JVal.vArr c9elems)
        = TransResult.many
            [some [("ok", JVal.vBool true)], none, some [("ok", JVal.vBool true)]]
            [[("e", "bad")]]
    ∧ tryTranslate c9vf c9mf true none false (JVal.vArr c9elems)
        = TransResult.thrownR [("e", "bad")] [] := by
  constructor
  · exact (array_translation_elementwise c9vf c9mf false (some true) c9elems [("e", "bad")]
      [] (JVal.vObj []) []).1 rfl
  · exact (array_translation_elementwise c9vf c9mf true none c9elems [("e", "bad")]
      [JVal.vObj [("a", JVal.vNum 1)]] (JVal.vObj []) [JVal.vObj [("b", JVal.vNum 2)]]).2.2
      rfl
      (by
        intro x hx
        rw [List.mem_singleton] at hx
        subst hx
        exact ⟨some [("ok", JVal.vBool true)], rfl⟩)
      rfl
